import Mathlib

/-!
Verification of the batch summarization pipeline of
`backend/All models/text_summarizer.py`.

Strings are modelled as `List Char` (one entry per Unicode code point, so
`List.length` matches Python's `len`).  Whitespace is the ASCII whitespace
recognised by Python's `str.split` / `str.strip` (space, tab, newline,
carriage return, vertical tab, form feed); non-ASCII whitespace is outside
the model.  The summarization model (`self.summarizer`) is an opaque
external call and is modelled as an oracle from invocation index and chunk
to either a summary text or a raised exception's message.
-/

/-- Text, modelled as its list of characters. -/
abbrev Str := List Char

/-- ASCII whitespace, as recognised by Python's `str.split` and `str.strip`. -/
def isSpace (c : Char) : Bool :=
  c == ' ' || c == '\t' || c == '\n' || c == '\r' || c == '\x0b' || c == '\x0c'

/-- Accumulator worker for Python's `str.split()` (split on whitespace runs,
dropping empty pieces).  `acc` holds the characters of the word in progress,
in reverse. -/
def pySplitAux : Str → Str → List Str
  | [], acc => if acc.isEmpty then [] else [acc.reverse]
  | c :: cs, acc =>
    if isSpace c then
      if acc.isEmpty then pySplitAux cs [] else acc.reverse :: pySplitAux cs []
    else
      pySplitAux cs (c :: acc)

/-- Python's `text.split()`: the whitespace-delimited words of `text`. -/
def pySplit (s : Str) : List Str := pySplitAux s []

/-- Python's `text.strip()`: drop leading and trailing whitespace. -/
def pyStrip (s : Str) : Str :=
  ((s.dropWhile isSpace).reverse.dropWhile isSpace).reverse

/-- `joinSpaceRest ws` is `' ' + w` for each `w` in `ws`, concatenated:
the tail part of `' '.join`. -/
def joinSpaceRest : List Str → Str
  | [] => []
  | w :: ws => ' ' :: (w ++ joinSpaceRest ws)

/-- Python's `' '.join(ws)`. -/
def joinSpace : List Str → Str
  | [] => []
  | w :: ws => w ++ joinSpaceRest ws

/-- A Python value that may be passed where a string is expected: either an
actual string or a non-string value carrying the name of its type (used to
form the message of the `TypeError` that `len` raises on it). -/
inductive PyVal where
  | str : Str → PyVal
  | other : Str → PyVal
deriving DecidableEq

/-- `TextPreprocessor.clean_text`: non-strings become `""`; strings are
stripped, whitespace-normalized via `' '.join(text.split())`, and discarded
(empty result) when shorter than 100 characters. -/
def clean_text : PyVal → Str
  | PyVal.other _ => []
  | PyVal.str text =>
    let text1 := pyStrip text
    let text2 := joinSpace (pySplit text1)
    if text2.length < 100 then [] else text2

/-- The loop of `TextPreprocessor.chunk_text`: `cur` is `current_chunk`,
`size` is `current_size`.  Mirrors the source exactly, including the append
of `' '.join(current_chunk)` without an emptiness check in the overflow
branch, and the trailing flush guarded by `if current_chunk`. -/
def chunkLoop (N : Int) : List Str → List Str → Int → List Str
  | [], cur, _ => if cur.isEmpty then [] else [joinSpace cur]
  | w :: ws, cur, size =>
    if size + (w.length : Int) > N then
      joinSpace cur :: chunkLoop N ws [w] (w.length : Int)
    else
      chunkLoop N ws (cur ++ [w]) (size + (w.length : Int) + 1)

/-- `TextPreprocessor.chunk_text`. -/
def chunk_text (text : Str) (max_chunk_size : Int) : List Str :=
  chunkLoop max_chunk_size (pySplit text) [] 0

/-- `SummaryConfig` (the dataclass).  The float field `temperature` is
omitted: it is only forwarded verbatim to the opaque model call and no
claim mentions it. -/
structure SummaryConfig where
  max_length : Int
  min_length : Int
  do_sample : Bool
  num_beams : Int
  batch_size : Int
  retry_attempts : Int
  chunk_size : Int
deriving DecidableEq

/-- The dataclass defaults of `SummaryConfig`. -/
def defaultConfig : SummaryConfig :=
  SummaryConfig.mk 600 50 false 4 8 3 1000

/-- The opaque summarization model: from global invocation index and chunk
text to either the produced `summary[0]['summary_text']` or the message of
the exception the call raised. -/
abbrev Model := Nat → Str → Except Str Str

/-- The message of the `SummarizationError` raised after the retries are
exhausted: `f"All retry attempts failed: {str(e)}"`. -/
def sumErrWrap (e : Str) : Str :=
  ("All retry attempts failed: ").toList ++ e

/-- One attempt's chunk loop inside `process_text`: feed the chunks to the
model in order, starting at invocation index `k`; stop at the first raised
exception.  Returns the collected summaries (or the exception message)
together with the invocation index after the last call made. -/
def attemptChunks (model : Model) : List Str → Nat → Except (Str × Nat) (List Str × Nat)
  | [], k => Except.ok ([], k)
  | c :: cs, k =>
    match model k c with
    | Except.error e => Except.error (e, k + 1)
    | Except.ok s =>
      match attemptChunks model cs (k + 1) with
      | Except.error p => Except.error p
      | Except.ok (ss, k2) => Except.ok (s :: ss, k2)

/-- The `for attempt in range(retry_attempts)` loop of `process_text`.
`fuel` is the number of remaining iterations (`retry_attempts - attempt`),
`attempt` the current index, `k` the model invocation count so far.
`(Except.ok none, k)` is the implicit `return None` when the loop ends
without a `return` or `raise`.  The result pairs the outcome with the
total number of model invocations made. -/
def ptLoop (cfg : SummaryConfig) (model : Model) (text : PyVal) :
    Nat → Nat → Nat → Except Str (Option Str) × Nat
  | 0, _, k => (Except.ok none, k)
  | fuel + 1, attempt, k =>
    let cleaned := clean_text text
    if cleaned = [] then (Except.ok (some []), k)
    else
      match attemptChunks model (chunk_text cleaned cfg.chunk_size) k with
      | Except.ok (ss, k2) => (Except.ok (some (joinSpace ss)), k2)
      | Except.error (e, k2) =>
        if (attempt : Int) = cfg.retry_attempts - 1 then
          (Except.error (sumErrWrap e), k2)
        else
          ptLoop cfg model text fuel (attempt + 1) k2

/-- `SummarizationPipeline.process_text`: retry loop around clean, chunk and
per-chunk model calls.  `Except.error` is the raised `SummarizationError`'s
message; `Except.ok none` is a `None` return; `Except.ok (some s)` a string
return.  The second component counts the model invocations performed. -/
def process_text (cfg : SummaryConfig) (model : Model) (text : PyVal) :
    Except Str (Option Str) × Nat :=
  ptLoop cfg model text cfg.retry_attempts.toNat 0 0

/-- The article document as read by the pipeline: only `_id` and `content`
are ever accessed.  `content = none` models a document without the field
(then `article.get('content', '')` yields `''`); a present field may hold
any Python value. -/
structure Article where
  idA : Nat
  content : Option PyVal
deriving DecidableEq

/-- The summary metadata dict attached on success. -/
structure SummaryMetadata where
  model : Str
  version : Str
  original_length : Nat
  summary_length : Nat
deriving DecidableEq

/-- A field value appearing in an update's `$set` document. -/
inductive FieldVal where
  | vstr : Str → FieldVal
  | vtime : Nat → FieldVal
  | vmeta : SummaryMetadata → FieldVal
deriving DecidableEq

/-- A `pymongo.UpdateOne({"_id": id}, {"$set": fields})` as built by
`process_article`. -/
structure UpdateOne where
  filter_id : Nat
  set : List (String × FieldVal)
deriving DecidableEq

/-- Look a field up in an update's `$set` document. -/
def getField (u : UpdateOne) (f : String) : Option FieldVal :=
  u.set.lookup f

/-- MongoDB `$set` semantics on a document viewed as a partial map from
field names to values: fields named in the update take its value, all other
fields keep the document's. -/
def applyUpdate (u : UpdateOne) (doc : String → Option FieldVal) :
    String → Option FieldVal :=
  fun f =>
    match u.set.lookup f with
    | some v => some v
    | none => doc f

def fSummary : String := "summary"
def fStatus : String := "summary_status"
def fSummarizedAt : String := "summarized_at"
def fMetadata : String := "summary_metadata"
def fSummaryError : String := "summary_error"
def fLastAttempt : String := "last_attempt"

/-- The only fields the pipeline ever writes. -/
def allowedFields : List String :=
  [fSummary, fStatus, fSummarizedAt, fMetadata, fSummaryError, fLastAttempt]

def sSuccess : Str := ("success").toList
def sFailed : Str := ("failed").toList
def modelNameStr : Str := ("facebook/bart-large-cnn").toList
def versionStr : Str := ("1.0").toList

/-- `str(TypeError)` message of `len(v)` on a value of type `tn`. -/
def noLenMsg (tn : Str) : Str :=
  ("object of type '").toList ++ tn ++ ("' has no len()").toList

/-- The message of the `TypeError` raised by `len(None)`. -/
def noneLenMsg : Str := noLenMsg (("NoneType").toList)

/-- Python `len` on a value where a string is expected: raises `TypeError`
on a non-string. -/
def pyLen : PyVal → Except Str Nat
  | PyVal.str s => Except.ok s.length
  | PyVal.other tn => Except.error (noLenMsg tn)

/-- The failure update built in `process_article`'s `except` branch:
`$set {summary_status: failed, summary_error: str(e), last_attempt: now}`. -/
def failedUpdate (id : Nat) (e : Str) (now : Nat) : UpdateOne :=
  UpdateOne.mk id
    [(fStatus, FieldVal.vstr sFailed),
     (fSummaryError, FieldVal.vstr e),
     (fLastAttempt, FieldVal.vtime now)]

/-- The success update built in `process_article`'s `try` branch. -/
def successUpdate (id : Nat) (s : Str) (origLen : Nat) (now : Nat) : UpdateOne :=
  UpdateOne.mk id
    [(fSummary, FieldVal.vstr s),
     (fStatus, FieldVal.vstr sSuccess),
     (fSummarizedAt, FieldVal.vtime now),
     (fMetadata, FieldVal.vmeta (SummaryMetadata.mk modelNameStr versionStr origLen s.length))]

/-- `process_batch.process_article`: summarize `article.get('content', '')`
and build the success update; any exception (a `SummarizationError` out of
`process_text`, or the `TypeError` of `len` on a non-string content or on a
`None` summary when the retry loop ran zero times) falls to the `except`
branch and builds the failure update.  `len(article.get('content', ''))`
stands before `len(summary)` in the dict literal and so raises first.
`datetime.utcnow()` is modelled by the parameter `now`. -/
def process_article (cfg : SummaryConfig) (model : Model) (now : Nat)
    (a : Article) : UpdateOne :=
  match (process_text cfg model (a.content.getD (PyVal.str []))).1 with
  | Except.error e => failedUpdate a.idA e now
  | Except.ok osum =>
    match pyLen (a.content.getD (PyVal.str [])) with
    | Except.error e => failedUpdate a.idA e now
    | Except.ok olen =>
      match osum with
      | none => failedUpdate a.idA noneLenMsg now
      | some s => successUpdate a.idA s olen now

/-- `SummarizationPipeline.process_batch`: one `process_article` task per
article, gathered in order.  The tasks are independent (each article's
model calls are its own), so the oracle is given per article. -/
def process_batch (cfg : SummaryConfig) (oracle : Article → Model) (now : Nat)
    (articles : List Article) : List UpdateOne :=
  articles.map (fun a => process_article cfg (oracle a) now a)

/-- The result dict of `MongoDBHandler.bulk_update_summaries`. -/
structure BulkResult where
  modified_count : Nat
  status : String
  error : Option Str
deriving DecidableEq

def statusSuccessS : String := "success"
def statusFailedS : String := "failed"

/-- `MongoDBHandler.bulk_update_summaries`: the store's `bulk_write` is an
oracle returning a modified count or raising a `PyMongoError` with a
message; the `except PyMongoError` branch turns the latter into a `failed`
result instead of re-raising. -/
def bulk_update_summaries (bw : List UpdateOne → Except Str Nat)
    (updates : List UpdateOne) : BulkResult :=
  match bw updates with
  | Except.ok n => BulkResult.mk n statusSuccessS none
  | Except.error e => BulkResult.mk 0 statusFailedS (some e)

/-- One iteration of `SummarizationPipeline.run` as recorded by the trace:
the fetched batch, the updates handed to `bulk_update_summaries`, and its
result.  Each entry is exactly one `bulk_update_summaries` call. -/
structure IterLog where
  batch : List Article
  submitted : List UpdateOne
  result : BulkResult
deriving DecidableEq

/-- The `while True` loop of `SummarizationPipeline.run`: fetch batch `i`
(`fetch` models `get_unsummarized_articles`, one batch per iteration),
stop on an empty fetch, otherwise process the batch and submit the updates
in a single `bulk_update_summaries` call.  `fuel` bounds the number of
iterations (the source loop may run forever on a store that never returns
an empty batch). -/
def runTrace (cfg : SummaryConfig) (oracle : Article → Model) (now : Nat)
    (fetch : Nat → List Article) (bw : List UpdateOne → Except Str Nat) :
    Nat → Nat → List IterLog
  | 0, _ => []
  | fuel + 1, i =>
    let articles := fetch i
    if articles.isEmpty then []
    else
      let updates := process_batch cfg oracle now articles
      IterLog.mk articles updates (bulk_update_summaries bw updates) ::
        runTrace cfg oracle now fetch bw fuel (i + 1)

/-- Trimming and collapsing, written out from the spec's words for 4.1:
walk the trimmed text replacing every whitespace run by a single space.
`prev` records whether the previous kept character was the space of a run
in progress. -/
def collapseRuns : Bool → Str → Str
  | _, [] => []
  | prev, c :: cs =>
    if isSpace c then
      if prev then collapseRuns true cs else ' ' :: collapseRuns true cs
    else
      c :: collapseRuns false cs

/-- The string has no leading whitespace. -/
def noLeadB : Str → Bool
  | [] => true
  | c :: _ => !isSpace c

/-- The string has no trailing whitespace. -/
def noTrailB (s : Str) : Bool := noLeadB s.reverse

/-! ## Word and join lemmas -/

theorem joinSpaceRest_append (l1 l2 : List Str) :
    joinSpaceRest (l1 ++ l2) = joinSpaceRest l1 ++ joinSpaceRest l2 := by
  induction l1 with
  | nil => rfl
  | cons w ws ih => simp [joinSpaceRest, ih]

theorem joinSpaceRest_of_ne_nil (L : List Str) (h : L ≠ []) :
    joinSpaceRest L = ' ' :: joinSpace L := by
  cases L with
  | nil => exact absurd rfl h
  | cons w ws => rfl

theorem joinSpace_append (l1 l2 : List Str) (h : l1 ≠ []) :
    joinSpace (l1 ++ l2) = joinSpace l1 ++ joinSpaceRest l2 := by
  cases l1 with
  | nil => exact absurd rfl h
  | cons w ws => simp [joinSpace, joinSpaceRest_append]

theorem joinSpace_ne_nil (L : List Str) (h : L ≠ []) (hw : ∀ w ∈ L, w ≠ []) :
    joinSpace L ≠ [] := by
  cases L with
  | nil => exact absurd rfl h
  | cons w ws =>
    have hwne : w ≠ [] := hw w (List.mem_cons_self w ws)
    cases w with
    | nil => exact absurd rfl hwne
    | cons c cs => simp [joinSpace]

theorem mem_pySplit_ne_nil : ∀ (s acc : Str), ∀ w ∈ pySplitAux s acc, w ≠ [] := by
  intro s
  induction s with
  | nil =>
    intro acc w hw
    cases acc with
    | nil => simp [pySplitAux] at hw
    | cons a as =>
      simp [pySplitAux] at hw
      subst hw
      simp
  | cons c cs ih =>
    intro acc w hw
    by_cases hsp : isSpace c
    · cases acc with
      | nil =>
        simp [pySplitAux, hsp] at hw
        exact ih [] w hw
      | cons a as =>
        simp [pySplitAux, hsp] at hw
        rcases hw with hw | hw
        · subst hw; simp
        · exact ih [] w hw
    · simp [pySplitAux, hsp] at hw
      exact ih (c :: acc) w hw

theorem mem_pySplit_no_space :
    ∀ (s acc : Str), (∀ c ∈ acc, isSpace c = false) →
      ∀ w ∈ pySplitAux s acc, ∀ c ∈ w, isSpace c = false := by
  intro s
  induction s with
  | nil =>
    intro acc hacc w hw c hc
    cases acc with
    | nil => simp [pySplitAux] at hw
    | cons a as =>
      simp [pySplitAux] at hw
      subst hw
      rcases List.mem_append.mp hc with h1 | h1
      · exact hacc c (List.mem_cons_of_mem a (List.mem_reverse.mp h1))
      · have h2 : c = a := by simpa using h1
        subst h2
        exact hacc c (List.mem_cons_self c as)
  | cons b bs ih =>
    intro acc hacc w hw c hc
    by_cases hsp : isSpace b
    · cases acc with
      | nil =>
        simp [pySplitAux, hsp] at hw
        exact ih [] (by simp) w hw c hc
      | cons a as =>
        simp [pySplitAux, hsp] at hw
        rcases hw with hw | hw
        · subst hw
          rcases List.mem_append.mp hc with h1 | h1
          · exact hacc c (List.mem_cons_of_mem a (List.mem_reverse.mp h1))
          · have h2 : c = a := by simpa using h1
            subst h2
            exact hacc c (List.mem_cons_self c as)
        · exact ih [] (by simp) w hw c hc
    · simp [pySplitAux, hsp] at hw
      refine ih (b :: acc) ?_ w hw c hc
      intro d hd
      rcases List.mem_cons.mp hd with hd | hd
      · subst hd; exact Bool.not_eq_true _ ▸ (by simpa using hsp)
      · exact hacc d hd

theorem pySplitAux_ne_nil : ∀ (s acc : Str), acc ≠ [] → pySplitAux s acc ≠ [] := by
  intro s
  induction s with
  | nil =>
    intro acc hacc
    cases acc with
    | nil => exact absurd rfl hacc
    | cons a as => simp [pySplitAux]
  | cons c cs ih =>
    intro acc hacc
    by_cases hsp : isSpace c
    · cases acc with
      | nil => exact absurd rfl hacc
      | cons a as => simp [pySplitAux, hsp]
    · simp [pySplitAux, hsp]
      exact ih (c :: acc) (by simp)

/-! ## Chunking lemmas -/

theorem chunkLoop_ne_nil (N : Int) :
    ∀ (ws cur : List Str) (size : Int), cur ≠ [] → chunkLoop N ws cur size ≠ [] := by
  intro ws
  induction ws with
  | nil =>
    intro cur size hcur
    cases cur with
    | nil => exact absurd rfl hcur
    | cons u us => simp [chunkLoop]
  | cons w ws ih =>
    intro cur size hcur
    by_cases hov : size + (w.length : Int) > N
    · simp [chunkLoop, hov]
    · rw [chunkLoop, if_neg hov]
      exact ih (cur ++ [w]) (size + (w.length : Int) + 1) (by simp)

theorem joinSpace_chunkLoop (N : Int) :
    ∀ (ws cur : List Str) (size : Int), cur ≠ [] →
      joinSpace (chunkLoop N ws cur size) = joinSpace (cur ++ ws) := by
  intro ws
  induction ws with
  | nil =>
    intro cur size hcur
    cases cur with
    | nil => exact absurd rfl hcur
    | cons u us => simp [chunkLoop, joinSpace, joinSpaceRest]
  | cons w ws ih =>
    intro cur size hcur
    by_cases hov : size + (w.length : Int) > N
    · rw [chunkLoop, if_pos hov]
      have hne : chunkLoop N ws [w] (w.length : Int) ≠ [] :=
        chunkLoop_ne_nil N ws [w] (w.length : Int) (by simp)
      rw [joinSpace, joinSpaceRest_of_ne_nil _ hne,
          ih [w] (w.length : Int) (by simp),
          joinSpace_append cur (w :: ws) hcur,
          joinSpaceRest_of_ne_nil (w :: ws) (by simp)]
      rfl
    · rw [chunkLoop, if_neg hov, ih (cur ++ [w]) (size + (w.length : Int) + 1) (by simp),
          List.append_assoc]
      rfl

theorem chunkLoop_all_ne_nil (N : Int) :
    ∀ (ws cur : List Str) (size : Int),
      (∀ w ∈ cur, w ≠ []) → (∀ w ∈ ws, w ≠ []) → cur ≠ [] →
      ∀ c ∈ chunkLoop N ws cur size, c ≠ [] := by
  intro ws
  induction ws with
  | nil =>
    intro cur size hcur hws hne c hc
    cases cur with
    | nil => exact absurd rfl hne
    | cons u us =>
      simp [chunkLoop] at hc
      subst hc
      exact joinSpace_ne_nil (u :: us) (by simp) hcur
  | cons w ws ih =>
    intro cur size hcur hws hne c hc
    by_cases hov : size + (w.length : Int) > N
    · rw [chunkLoop, if_pos hov] at hc
      rcases List.mem_cons.mp hc with hc | hc
      · subst hc
        exact joinSpace_ne_nil cur hne hcur
      · refine ih [w] (w.length : Int) ?_ ?_ (by simp) c hc
        · intro v hv
          have : v = w := by simpa using hv
          subst this
          exact hws v (List.mem_cons_self v ws)
        · intro v hv
          exact hws v (List.mem_cons_of_mem w hv)
    · rw [chunkLoop, if_neg hov] at hc
      refine ih (cur ++ [w]) (size + (w.length : Int) + 1) ?_ ?_ (by simp) c hc
      · intro v hv
        rcases List.mem_append.mp hv with hv | hv
        · exact hcur v hv
        · have : v = w := by simpa using hv
          subst this
          exact hws v (List.mem_cons_self v ws)
      · intro v hv
        exact hws v (List.mem_cons_of_mem w hv)

/-- For a word list with no empty words, an empty chunk can only stand at
the head of `chunk_text`'s result (it is the flush of the still-empty
`current_chunk` before an oversized first word). -/
theorem chunkLoop_empty_chunk_first (N : Int) (words : List Str)
    (hall : ∀ u ∈ words, u ≠ []) :
    ∀ i, ∀ h : i < (chunkLoop N words [] 0).length,
      (chunkLoop N words [] 0).get ⟨i, h⟩ = [] → i = 0 := by
  cases words with
  | nil =>
    intro i h
    simp [chunkLoop] at h
  | cons v vs =>
    have hv : v ≠ [] := hall v (List.mem_cons_self v vs)
    have hvs : ∀ u ∈ vs, u ≠ [] := fun u hu => hall u (List.mem_cons_of_mem v hu)
    by_cases hov : (0 : Int) + (v.length : Int) > N
    · rw [chunkLoop, if_pos hov]
      intro i h hget
      cases i with
      | zero => rfl
      | succ j =>
        exfalso
        have hL : ∀ c ∈ chunkLoop N vs [v] (v.length : Int), c ≠ [] := by
          refine chunkLoop_all_ne_nil N vs [v] (v.length : Int) ?_ hvs (by simp)
          intro u hu
          have : u = v := by simpa using hu
          subst this
          exact hv
        have hget2 : (chunkLoop N vs [v] (v.length : Int)).get ⟨j, by simpa using h⟩ = [] := hget
        exact hL _ (List.get_mem _ _ _) hget2
    · rw [chunkLoop, if_neg hov]
      intro i h hget
      exfalso
      have hL : ∀ c ∈ chunkLoop N vs ([] ++ [v]) ((0 : Int) + (v.length : Int) + 1), c ≠ [] := by
        refine chunkLoop_all_ne_nil N vs ([] ++ [v]) ((0 : Int) + (v.length : Int) + 1) ?_ hvs (by simp)
        intro u hu
        have : u = v := by simpa using hu
        subst this
        exact hv
      exact hL _ (List.get_mem _ _ _) hget

/-- Claim C6 counterexample: for the two-character one-word text `ab` and
`max_chunk_size = 1 > 0`, the joined chunk sequence is `" ab"` (the
oversized first word makes the loop flush the still-empty `current_chunk`
as an empty first chunk), which is not the whitespace-normalized word
sequence `"ab"`. -/
theorem chunk_join_counterexample :
    (0 : Int) < 1 ∧
      joinSpace (chunk_text (("ab").toList) 1) ≠ joinSpace (pySplit (("ab").toList)) := by
  constructor
  · decide
  · decide

/-- Claim C6 (amended): for every text and every `max_chunk_size N > 0`
such that the first word of the text is not longer than `N` (in particular
whenever no word exceeds `N`), joining the chunks returned by
`chunk_text` with single spaces reconstructs exactly the
whitespace-normalized word sequence of the text. -/
theorem chunk_join_reconstruct (text : Str) (N : Int) (h0 : 0 < N)
    (hw : ∀ w, (pySplit text).head? = some w → (w.length : Int) ≤ N) :
    joinSpace (chunk_text text N) = joinSpace (pySplit text) := by
  unfold chunk_text
  cases hsplit : pySplit text with
  | nil => rfl
  | cons w ws =>
    have hlen : (w.length : Int) ≤ N := hw w (by rw [hsplit]; rfl)
    have hov : ¬ ((0 : Int) + (w.length : Int) > N) := by omega
    rw [chunkLoop, if_neg hov,
        joinSpace_chunkLoop N ws ([] ++ [w]) ((0 : Int) + (w.length : Int) + 1) (by simp)]
    simp

/-- Claim C6 witness: with text `aa bb cc` and `N = 5`, the chunks are
`["aa bb", "cc"]` and join back to `"aa bb cc"`. -/
theorem chunk_join_reconstruct_witness :
    joinSpace (chunk_text (("aa bb cc").toList) 5) =
      joinSpace (pySplit (("aa bb cc").toList)) :=
  chunk_join_reconstruct (("aa bb cc").toList) 5 (by decide)
    (fun w hw => by
      rw [show pySplit (("aa bb cc").toList) =
        [('a' :: 'a' :: []), ('b' :: 'b' :: []), ('c' :: 'c' :: [])] from by decide] at hw
      rw [List.head?_cons] at hw
      cases hw
      decide)

/-- Claim C7 counterexample: `N = 1 > 0`, text `ab` has one word, yet the
returned sequence contains the empty chunk (flushed before the oversized
first word). -/
theorem chunk_empty_chunk_counterexample :
    (0 : Int) < 1 ∧ pySplit (("ab").toList) ≠ [] ∧
      [] ∈ chunk_text (("ab").toList) 1 := by
  refine ⟨by decide, by decide, by decide⟩

/-- Claim C7 (amended): for every `max_chunk_size N > 0`: a text with no
words yields the empty chunk sequence; if the first word is not longer
than `N` every chunk is non-empty; and in all cases an empty chunk can
only be the first chunk of the sequence. -/
theorem chunk_nonempty_amended (text : Str) (N : Int) (h0 : 0 < N) :
    (pySplit text = [] → chunk_text text N = []) ∧
    (∀ w, (pySplit text).head? = some w → (w.length : Int) ≤ N →
      ∀ c ∈ chunk_text text N, c ≠ []) ∧
    (∀ i, ∀ h : i < (chunk_text text N).length,
      (chunk_text text N).get ⟨i, h⟩ = [] → i = 0) := by
  refine ⟨?_, ?_, ?_⟩
  · intro hsplit
    unfold chunk_text
    rw [hsplit]
    rfl
  · intro w hw hlen c hc
    unfold chunk_text at hc
    cases hsplit : pySplit text with
    | nil => rw [hsplit] at hc; simp [chunkLoop] at hc
    | cons v vs =>
      rw [hsplit] at hc
      have hv : v = w := by rw [hsplit] at hw; simpa using hw
      subst hv
      have hov : ¬ ((0 : Int) + (v.length : Int) > N) := by omega
      rw [chunkLoop, if_neg hov] at hc
      refine chunkLoop_all_ne_nil N vs ([] ++ [v]) ((0 : Int) + (v.length : Int) + 1) ?_ ?_ (by simp) c hc
      · intro u hu
        have : u = v := by simpa using hu
        subst this
        exact mem_pySplit_ne_nil text [] u (by rw [pySplit] at hsplit; rw [hsplit]; exact List.mem_cons_self u vs)
      · intro u hu
        exact mem_pySplit_ne_nil text [] u (by rw [pySplit] at hsplit; rw [hsplit]; exact List.mem_cons_of_mem v hu)
  · intro i h hget
    exact chunkLoop_empty_chunk_first N (pySplit text)
      (fun u hu => mem_pySplit_ne_nil text [] u hu) i h hget

/-- Claim C7 witness: on `aa bb cc` with `N = 5` (first word length 2 ≤ 5)
the first chunk of the result `["aa bb", "cc"]` is non-empty. -/
theorem chunk_nonempty_amended_witness :
    (chunk_text (("aa bb cc").toList) 5).headI ≠ [] :=
  (chunk_nonempty_amended (("aa bb cc").toList) 5 (by decide)).2.1
    ('a' :: 'a' :: []) (by decide) (by decide)
    ((chunk_text (("aa bb cc").toList) 5).headI) (by decide)

/-! ## process_text lemmas -/

theorem pySplitAux_cons_nonspace (c : Char) (rest : Str) (h : isSpace c = false) :
    pySplit (c :: rest) ≠ [] := by
  rw [pySplit, pySplitAux, h]
  simp only [Bool.false_eq_true, if_false]
  exact pySplitAux_ne_nil rest [c] (by simp)

/-- A non-empty `clean_text` result starts with a non-whitespace character:
it is a space-join of non-empty whitespace-free words. -/
theorem clean_text_head_nonspace (v : PyVal) (c : Char) (rest : Str)
    (h : clean_text v = c :: rest) : isSpace c = false := by
  cases v with
  | other tn => simp [clean_text] at h
  | str s =>
    rw [clean_text] at h
    by_cases hlen : (joinSpace (pySplit (pyStrip s))).length < 100
    · rw [if_pos hlen] at h
      exact absurd h.symm (List.cons_ne_nil c rest)
    · rw [if_neg hlen] at h
      cases hsp : pySplit (pyStrip s) with
      | nil => rw [hsp] at h; exact absurd h.symm (List.cons_ne_nil c rest)
      | cons w ws =>
        rw [hsp, joinSpace] at h
        have hwne : w ≠ [] := mem_pySplit_ne_nil (pyStrip s) [] w
          (by rw [pySplit] at hsp; rw [hsp]; exact List.mem_cons_self w ws)
        cases w with
        | nil => exact absurd rfl hwne
        | cons d ds =>
          have hd : isSpace d = false :=
            mem_pySplit_no_space (pyStrip s) [] (by simp) (d :: ds)
              (by rw [pySplit] at hsp; rw [hsp]; exact List.mem_cons_self _ ws) d
              (List.mem_cons_self d ds)
          have : d = c := by simpa using congrArg List.head? h
          subst this
          exact hd

theorem chunk_text_ne_nil (t : Str) (N : Int) (h : pySplit t ≠ []) :
    chunk_text t N ≠ [] := by
  unfold chunk_text
  cases hsp : pySplit t with
  | nil => exact absurd hsp h
  | cons v vs =>
    by_cases hov : (0 : Int) + (v.length : Int) > N
    · rw [chunkLoop, if_pos hov]
      simp
    · rw [chunkLoop, if_neg hov]
      exact chunkLoop_ne_nil N vs ([] ++ [v]) ((0 : Int) + (v.length : Int) + 1) (by simp)

theorem clean_chunks_ne_nil (v : PyVal) (N : Int) (h : clean_text v ≠ []) :
    chunk_text (clean_text v) N ≠ [] := by
  cases hc : clean_text v with
  | nil => exact absurd hc h
  | cons c rest =>
    exact chunk_text_ne_nil (c :: rest) N
      (pySplitAux_cons_nonspace c rest (clean_text_head_nonspace v c rest hc))

theorem attemptChunks_error (model : Model) (mf : Nat → Str → Str)
    (hfail : ∀ k c, model k c = Except.error (mf k c)) (c0 : Str) (cs : List Str) (k : Nat) :
    attemptChunks model (c0 :: cs) k = Except.error (mf k c0, k + 1) := by
  simp [attemptChunks, hfail]

/-- The retry loop under a model that fails on every invocation: each
remaining iteration consumes exactly one model call (the first chunk) and
the last one raises, wrapping that call's message. -/
theorem ptLoop_allfail (cfg : SummaryConfig) (model : Model) (text : PyVal)
    (mf : Nat → Str → Str) (c0 : Str) (cs : List Str)
    (hfail : ∀ k c, model k c = Except.error (mf k c))
    (hclean : ¬ clean_text text = [])
    (hchunks : chunk_text (clean_text text) cfg.chunk_size = c0 :: cs) :
    ∀ (fuel attempt k : Nat), 1 ≤ fuel → (attempt : Int) + (fuel : Int) = cfg.retry_attempts →
      ptLoop cfg model text fuel attempt k =
        (Except.error (sumErrWrap (mf (k + fuel - 1) c0)), k + fuel) := by
  intro fuel
  induction fuel with
  | zero => intro attempt k h1; omega
  | succ f ih =>
    intro attempt k h1 hsum
    rw [ptLoop]
    simp only [if_neg hclean, hchunks, attemptChunks_error model mf hfail c0 cs k]
    cases f with
    | zero =>
      have hlast : (attempt : Int) = cfg.retry_attempts - 1 := by omega
      rw [if_pos hlast]
      simp
    | succ f2 =>
      have hnot : ¬ (attempt : Int) = cfg.retry_attempts - 1 := by
        push_cast at hsum ⊢
        omega
      rw [if_neg hnot,
          ih (attempt + 1) (k + 1) (by omega) (by push_cast at hsum ⊢; omega)]
      have e1 : k + 1 + (f2 + 1) - 1 = k + (f2 + 1 + 1) - 1 := by omega
      have e2 : k + 1 + (f2 + 1) = k + (f2 + 1 + 1) := by omega
      rw [e1, e2]

/-- Claim C3: if cleaning yields a non-empty text, `retry_attempts >= 1`,
and the model raises on every invocation, then `process_text` raises a
`SummarizationError` wrapping the last exception's message
(`"All retry attempts failed: " + str(e)` where `e` is the exception of the
final attempt's call on the first chunk), and the model is invoked exactly
`retry_attempts` times. -/
theorem process_text_allfail_raises (cfg : SummaryConfig) (model : Model) (text : PyVal)
    (mf : Nat → Str → Str)
    (hr : 1 ≤ cfg.retry_attempts)
    (hclean : clean_text text ≠ [])
    (hfail : ∀ k c, model k c = Except.error (mf k c)) :
    process_text cfg model text =
      (Except.error (sumErrWrap (mf (cfg.retry_attempts.toNat - 1)
        ((chunk_text (clean_text text) cfg.chunk_size).headI))), cfg.retry_attempts.toNat) := by
  cases hch : chunk_text (clean_text text) cfg.chunk_size with
  | nil => exact absurd hch (clean_chunks_ne_nil text cfg.chunk_size hclean)
  | cons c0 cs =>
    unfold process_text
    rw [ptLoop_allfail cfg model text mf c0 cs hfail hclean hch cfg.retry_attempts.toNat 0 0
        (by omega) (by push_cast; omega)]
    simp

/-- Claim C3 witness: on a 100-character one-word text, with default
configuration (3 retries) and a model raising `boom` on every call,
`process_text` makes exactly 3 invocations and raises
`SummarizationError("All retry attempts failed: boom")`. -/
theorem process_text_allfail_raises_witness :
    process_text defaultConfig (fun _ _ => Except.error (("boom").toList))
        (PyVal.str (List.replicate 100 'a')) =
      (Except.error (sumErrWrap (("boom").toList)), 3) := by
  have h := process_text_allfail_raises defaultConfig
    (fun _ _ => Except.error (("boom").toList))
    (PyVal.str (List.replicate 100 'a'))
    (fun _ _ => ("boom").toList)
    (by decide) (by decide) (fun k c => rfl)
  exact h

/-- Claim C4: whenever cleaning yields the empty string (non-string input,
or text shorter than 100 characters after normalization) and
`retry_attempts >= 1`, `process_text` returns the empty string on the first
attempt, with zero model invocations and no exception. -/
theorem process_text_empty_clean (cfg : SummaryConfig) (model : Model) (text : PyVal)
    (hr : 1 ≤ cfg.retry_attempts) (hc : clean_text text = []) :
    process_text cfg model text = (Except.ok (some []), 0) := by
  unfold process_text
  obtain ⟨n, hn⟩ : ∃ n, cfg.retry_attempts.toNat = n + 1 :=
    ⟨cfg.retry_attempts.toNat - 1, by omega⟩
  rw [hn, ptLoop, if_pos hc]

/-- Claim C4 witness: the 5-character text `short` cleans to empty, so
`process_text` under the default configuration returns `""` with zero
model invocations. -/
theorem process_text_empty_clean_witness :
    process_text defaultConfig (fun _ _ => Except.ok []) (PyVal.str (("short").toList)) =
      (Except.ok (some []), 0) :=
  process_text_empty_clean defaultConfig (fun _ _ => Except.ok [])
    (PyVal.str (("short").toList)) (by decide) (by decide)

/-- Claim C10: with `retry_attempts <= 0` the `for attempt in range(...)`
body never executes, so `process_text` falls off the loop and returns
`None` — no model invocation, no exception, and no string result. -/
theorem process_text_nonpositive_retries (cfg : SummaryConfig) (model : Model)
    (text : PyVal) (h : cfg.retry_attempts ≤ 0) :
    process_text cfg model text = (Except.ok none, 0) := by
  unfold process_text
  have h0 : cfg.retry_attempts.toNat = 0 := by omega
  rw [h0]
  rfl

/-- Claim C10 witness: with `retry_attempts = 0` and a long text, the
result is `None` after zero model invocations. -/
theorem process_text_nonpositive_retries_witness :
    process_text (SummaryConfig.mk 600 50 false 4 8 0 1000)
        (fun _ _ => Except.ok (("s").toList)) (PyVal.str (List.replicate 100 'a')) =
      (Except.ok none, 0) :=
  process_text_nonpositive_retries _ _ _ (by decide)

/-! ## process_article and pipeline lemmas -/

theorem sumErrWrap_ne_nil (e : Str) : sumErrWrap e ≠ [] := by
  unfold sumErrWrap
  cases h : ("All retry attempts failed: ").toList with
  | nil => exact absurd h (by decide)
  | cons a as => simp

theorem noLenMsg_ne_nil (tn : Str) : noLenMsg tn ≠ [] := by
  unfold noLenMsg
  cases h : ("object of type '").toList with
  | nil => exact absurd h (by decide)
  | cons a as => simp [h]

theorem noneLenMsg_ne_nil : noneLenMsg ≠ [] := noLenMsg_ne_nil _

theorem pyLen_error_ne_nil (v : PyVal) (e : Str) (h : pyLen v = Except.error e) :
    e ≠ [] := by
  cases v with
  | str s => simp [pyLen] at h
  | other tn =>
    have : noLenMsg tn = e := by simpa [pyLen] using h
    rw [← this]
    exact noLenMsg_ne_nil tn

/-- Every exception `process_text` can raise is a `SummarizationError`
whose message is `"All retry attempts failed: " + str(e)`. -/
theorem ptLoop_error_shape (cfg : SummaryConfig) (model : Model) (text : PyVal) :
    ∀ (fuel attempt k : Nat) (e : Str),
      (ptLoop cfg model text fuel attempt k).1 = Except.error e →
      ∃ e0, e = sumErrWrap e0 := by
  intro fuel
  induction fuel with
  | zero =>
    intro attempt k e h
    rw [ptLoop] at h
    simp at h
  | succ f ih =>
    intro attempt k e h
    rw [ptLoop] at h
    by_cases hcl : clean_text text = []
    · simp only [if_pos hcl] at h
      simp at h
    · simp only [if_neg hcl] at h
      cases hac : attemptChunks model (chunk_text (clean_text text) cfg.chunk_size) k with
      | ok p =>
        obtain ⟨ss, k3⟩ := p
        rw [hac] at h
        simp at h
      | error p =>
        obtain ⟨e1, k3⟩ := p
        rw [hac] at h
        by_cases hl : (attempt : Int) = cfg.retry_attempts - 1
        · simp only [if_pos hl] at h
          simp at h
          exact ⟨e1, h.symm⟩
        · simp only [if_neg hl] at h
          exact ih (attempt + 1) k3 e h

theorem process_text_error_shape (cfg : SummaryConfig) (model : Model) (text : PyVal)
    (e : Str) (h : (process_text cfg model text).1 = Except.error e) :
    ∃ e0, e = sumErrWrap e0 :=
  ptLoop_error_shape cfg model text cfg.retry_attempts.toNat 0 0 e h

/-- `process_article` builds exactly one of the two update shapes, always
filtered on the article's `_id`; in the failure shape the recorded error
message is non-empty. -/
theorem process_article_cases (cfg : SummaryConfig) (model : Model) (now : Nat)
    (a : Article) :
    (∃ e, e ≠ [] ∧ process_article cfg model now a = failedUpdate a.idA e now) ∨
    (∃ s olen, process_article cfg model now a = successUpdate a.idA s olen now) := by
  unfold process_article
  cases hpt : (process_text cfg model (a.content.getD (PyVal.str []))).1 with
  | error e =>
    obtain ⟨e0, rfl⟩ := process_text_error_shape cfg model _ e hpt
    exact Or.inl ⟨sumErrWrap e0, sumErrWrap_ne_nil e0, rfl⟩
  | ok osum =>
    cases hlen : pyLen (a.content.getD (PyVal.str [])) with
    | error e2 => exact Or.inl ⟨e2, pyLen_error_ne_nil _ e2 hlen, rfl⟩
    | ok olen =>
      cases osum with
      | none => exact Or.inl ⟨noneLenMsg, noneLenMsg_ne_nil, rfl⟩
      | some s => exact Or.inr ⟨s, olen, rfl⟩

theorem getField_failed_status (id : Nat) (e : Str) (now : Nat) :
    getField (failedUpdate id e now) fStatus = some (FieldVal.vstr sFailed) := rfl

theorem getField_failed_error (id : Nat) (e : Str) (now : Nat) :
    getField (failedUpdate id e now) fSummaryError = some (FieldVal.vstr e) := rfl

theorem getField_success_status (id : Nat) (s : Str) (olen now : Nat) :
    getField (successUpdate id s olen now) fStatus = some (FieldVal.vstr sSuccess) := rfl

theorem getField_success_summary (id : Nat) (s : Str) (olen now : Nat) :
    getField (successUpdate id s olen now) fSummary = some (FieldVal.vstr s) := rfl

/-- Claim C1 counterexample: an article whose `content` is the empty string
cleans to empty, so `process_text` returns `""` and `process_article` emits
a `summary_status = success` Update Record whose `summary` field is the
EMPTY string, against the claim that success implies a non-empty summary. -/
theorem process_article_success_empty_summary :
    getField (process_article defaultConfig (fun _ _ => Except.error []) 0
        (Article.mk 0 (some (PyVal.str [])))) fStatus = some (FieldVal.vstr sSuccess) ∧
    getField (process_article defaultConfig (fun _ _ => Except.error []) 0
        (Article.mk 0 (some (PyVal.str [])))) fSummary = some (FieldVal.vstr []) := by
  constructor
  · rfl
  · rfl

/-- Claim C1 (amended): every Update Record produced by the pipeline that
sets `summary_status` to `success` sets `summary` to a string (possibly
empty — empty exactly when the content cleans to empty or the model returns
empty chunk summaries), and every record that sets `summary_status` to
`failed` sets `summary_error` to a non-empty string. -/
theorem process_article_status_field_integrity (cfg : SummaryConfig) (model : Model)
    (now : Nat) (a : Article) :
    (getField (process_article cfg model now a) fStatus = some (FieldVal.vstr sSuccess) →
      ∃ s, getField (process_article cfg model now a) fSummary = some (FieldVal.vstr s)) ∧
    (getField (process_article cfg model now a) fStatus = some (FieldVal.vstr sFailed) →
      ∃ e, getField (process_article cfg model now a) fSummaryError = some (FieldVal.vstr e) ∧
        e ≠ []) := by
  rcases process_article_cases cfg model now a with ⟨e, hene, hu⟩ | ⟨s, olen, hu⟩
  · rw [hu]
    constructor
    · intro h
      rw [getField_failed_status] at h
      have h2 := FieldVal.vstr.inj (Option.some.inj h)
      exact absurd h2 (by decide)
    · intro _
      exact ⟨e, getField_failed_error a.idA e now, hene⟩
  · rw [hu]
    constructor
    · intro _
      exact ⟨s, getField_success_summary a.idA s olen now⟩
    · intro h
      rw [getField_success_status] at h
      have h2 := FieldVal.vstr.inj (Option.some.inj h)
      exact absurd h2 (by decide)

/-- Claim C1 witness: an always-failing model on a long text yields a
`failed` record carrying the non-empty `SummarizationError` message. -/
theorem process_article_status_field_integrity_witness :
    ∃ e, getField (process_article defaultConfig (fun _ _ => Except.error (("boom").toList)) 0
        (Article.mk 3 (some (PyVal.str (List.replicate 100 'a'))))) fSummaryError =
          some (FieldVal.vstr e) ∧ e ≠ [] :=
  (process_article_status_field_integrity defaultConfig
      (fun _ _ => Except.error (("boom").toList)) 0
      (Article.mk 3 (some (PyVal.str (List.replicate 100 'a'))))).2 (by decide)

/-- Claim C9: the `$set` documents built by the pipeline name only the six
summary-related fields, and under MongoDB `$set` semantics every other
field of the article document keeps its value. -/
theorem process_article_frame (cfg : SummaryConfig) (model : Model) (now : Nat)
    (a : Article) :
    (∀ p ∈ (process_article cfg model now a).set, p.1 ∈ allowedFields) ∧
    (∀ (doc : String → Option FieldVal) (f : String), f ∉ allowedFields →
      applyUpdate (process_article cfg model now a) doc f = doc f) := by
  have hno : ∀ (f : String), f ∉ allowedFields → ∀ g ∈ allowedFields, (f == g) = false := by
    intro f hf g hg
    exact beq_eq_false_iff_ne.mpr (fun he => hf (he ▸ hg))
  rcases process_article_cases cfg model now a with ⟨e, _, hu⟩ | ⟨s, olen, hu⟩
  · rw [hu]
    constructor
    · intro p hp
      simp only [failedUpdate, List.mem_cons, List.not_mem_nil, or_false] at hp
      rcases hp with rfl | rfl | rfl <;> simp [allowedFields]
    · intro doc f hf
      unfold applyUpdate failedUpdate
      simp [List.lookup,
        hno f hf fStatus (by simp [allowedFields]),
        hno f hf fSummaryError (by simp [allowedFields]),
        hno f hf fLastAttempt (by simp [allowedFields])]
  · rw [hu]
    constructor
    · intro p hp
      simp only [successUpdate, List.mem_cons, List.not_mem_nil, or_false] at hp
      rcases hp with rfl | rfl | rfl | rfl <;> simp [allowedFields]
    · intro doc f hf
      unfold applyUpdate successUpdate
      simp [List.lookup,
        hno f hf fSummary (by simp [allowedFields]),
        hno f hf fStatus (by simp [allowedFields]),
        hno f hf fSummarizedAt (by simp [allowedFields]),
        hno f hf fMetadata (by simp [allowedFields])]

/-- Claim C9 witness: the pipeline's update leaves the `content` field of a
document untouched. -/
theorem process_article_frame_witness :
    applyUpdate (process_article defaultConfig (fun _ _ => Except.error []) 0
        (Article.mk 0 (some (PyVal.str []))))
      (fun _ => some (FieldVal.vstr (("body").toList))) ("content") =
      some (FieldVal.vstr (("body").toList)) :=
  (process_article_frame defaultConfig (fun _ _ => Except.error []) 0
      (Article.mk 0 (some (PyVal.str [])))).2
    (fun _ => some (FieldVal.vstr (("body").toList))) ("content") (by decide)

theorem process_article_filter_id (cfg : SummaryConfig) (model : Model) (now : Nat)
    (a : Article) : (process_article cfg model now a).filter_id = a.idA := by
  rcases process_article_cases cfg model now a with ⟨e, _, hu⟩ | ⟨s, olen, hu⟩ <;>
    rw [hu] <;> rfl

theorem process_article_status_success_or_failed (cfg : SummaryConfig) (model : Model)
    (now : Nat) (a : Article) :
    getField (process_article cfg model now a) fStatus = some (FieldVal.vstr sSuccess) ∨
    getField (process_article cfg model now a) fStatus = some (FieldVal.vstr sFailed) := by
  rcases process_article_cases cfg model now a with ⟨e, _, hu⟩ | ⟨s, olen, hu⟩
  · rw [hu]
    exact Or.inr (getField_failed_status a.idA e now)
  · rw [hu]
    exact Or.inl (getField_success_status a.idA s olen now)

theorem zip_map_self {α β : Type} (g : α → β) :
    ∀ (l : List α), ∀ p ∈ l.zip (l.map g), p.2 = g p.1 := by
  intro l
  induction l with
  | nil => intro p hp; simp at hp
  | cons a as ih =>
    intro p hp
    rcases List.mem_cons.mp hp with hp | hp
    · subst hp; rfl
    · exact ih p hp

/-- Claim C2: every entry of the run loop's trace is one
`bulk_update_summaries` call on a non-empty fetched batch, and its
submitted updates are exactly `process_batch` of that batch: one Update
Record per article, in order, each filtered on that article's `_id` and
setting `summary_status` to `success` or `failed`. -/
theorem runTrace_one_update_per_article (cfg : SummaryConfig) (oracle : Article → Model)
    (now : Nat) (fetch : Nat → List Article) (bw : List UpdateOne → Except Str Nat) :
    ∀ (fuel i : Nat), ∀ log ∈ runTrace cfg oracle now fetch bw fuel i,
      log.batch ≠ [] ∧
      log.submitted = process_batch cfg oracle now log.batch ∧
      log.submitted.length = log.batch.length ∧
      ∀ p ∈ log.batch.zip log.submitted,
        p.2.filter_id = p.1.idA ∧
        (getField p.2 fStatus = some (FieldVal.vstr sSuccess) ∨
         getField p.2 fStatus = some (FieldVal.vstr sFailed)) := by
  intro fuel
  induction fuel with
  | zero => intro i log hlog; simp [runTrace] at hlog
  | succ f ih =>
    intro i log hlog
    rw [runTrace] at hlog
    by_cases hemp : (fetch i).isEmpty
    · rw [if_pos hemp] at hlog
      simp at hlog
    · rw [if_neg hemp] at hlog
      rcases List.mem_cons.mp hlog with hlog | hlog
      · subst hlog
        refine ⟨?_, rfl, ?_, ?_⟩
        · show fetch i ≠ []
          intro hbn
          rw [hbn] at hemp
          exact hemp rfl
        · show (process_batch cfg oracle now (fetch i)).length = (fetch i).length
          simp [process_batch]
        · show ∀ p ∈ (fetch i).zip (process_batch cfg oracle now (fetch i)), _
          intro p hp
          have hp2 : p.2 = process_article cfg (oracle p.1) now p.1 :=
            zip_map_self (fun a => process_article cfg (oracle a) now a) (fetch i) p hp
          rw [hp2]
          exact ⟨process_article_filter_id cfg (oracle p.1) now p.1,
            process_article_status_success_or_failed cfg (oracle p.1) now p.1⟩
      · exact ih (i + 1) log hlog

def demoFetch : Nat → List Article :=
  fun i => if i = 0 then [Article.mk 7 (some (PyVal.str []))] else []

def demoOracle : Article → Model := fun _ _ _ => Except.error []

def demoBW : List UpdateOne → Except Str Nat := fun _ => Except.ok 1

instance : Inhabited IterLog :=
  ⟨IterLog.mk [] [] (BulkResult.mk 0 statusSuccessS none)⟩

def demoLog : IterLog := (runTrace defaultConfig demoOracle 0 demoFetch demoBW 2 0).headI

/-- Claim C2 witness: a store with one single-article batch yields a trace
whose one entry has a non-empty batch and exactly one update record. -/
theorem runTrace_one_update_per_article_witness :
    demoLog.batch ≠ [] ∧ demoLog.submitted.length = demoLog.batch.length := by
  have h := runTrace_one_update_per_article defaultConfig demoOracle 0 demoFetch demoBW
    2 0 demoLog (List.mem_cons_self _ _)
  exact ⟨h.1, h.2.2.1⟩

/-- Claim C8: `bulk_update_summaries` never propagates an exception: when
the store's bulk write raises a `PyMongoError`, it returns a `failed`
result with `modified_count = 0` carrying the error's message; on success
it returns a `success` result with the store's modified count. -/
theorem bulk_update_summaries_no_raise (bw : List UpdateOne → Except Str Nat)
    (updates : List UpdateOne) :
    (∀ n, bw updates = Except.ok n →
      bulk_update_summaries bw updates = BulkResult.mk n statusSuccessS none) ∧
    (∀ e, bw updates = Except.error e →
      bulk_update_summaries bw updates = BulkResult.mk 0 statusFailedS (some e)) := by
  constructor <;> intro x hx <;> simp [bulk_update_summaries, hx]

/-- Claim C8 witness: a totally failing bulk write surfaces the error in a
`failed` result with zero modifications instead of raising. -/
theorem bulk_update_summaries_no_raise_witness :
    bulk_update_summaries (fun _ => Except.error (("conn").toList)) [] =
      BulkResult.mk 0 statusFailedS (some (("conn").toList)) :=
  (bulk_update_summaries_no_raise (fun _ => Except.error (("conn").toList)) []).2
    (("conn").toList) rfl

/-! ## clean_text versus the spec's trim-and-collapse description -/

theorem head_dropWhile_not_space :
    ∀ (l : Str) (c : Char), (l.dropWhile isSpace).head? = some c → isSpace c = false := by
  intro l
  induction l with
  | nil => intro c h; simp at h
  | cons a as ih =>
    intro c h
    by_cases ha : isSpace a
    · rw [List.dropWhile_cons_of_pos ha] at h
      exact ih c h
    · rw [List.dropWhile_cons_of_neg ha] at h
      have : a = c := by simpa using h
      subst this
      exact Bool.not_eq_true _ ▸ (by simpa using ha)

theorem noLeadB_dropWhile (x : Str) : noLeadB (x.dropWhile isSpace) = true := by
  cases h : x.dropWhile isSpace with
  | nil => rfl
  | cons c cs =>
    have hc := head_dropWhile_not_space x c (by rw [h]; rfl)
    simp [noLeadB, hc]

theorem noTrailB_pyStrip (s : Str) : noTrailB (pyStrip s) = true := by
  unfold noTrailB pyStrip
  rw [List.reverse_reverse]
  exact noLeadB_dropWhile _

theorem noLeadB_pyStrip (s : Str) : noLeadB (pyStrip s) = true := by
  unfold pyStrip
  obtain ⟨t, ht⟩ := List.dropWhile_suffix (l := (s.dropWhile isSpace).reverse) isSpace
  cases hd : ((s.dropWhile isSpace).reverse.dropWhile isSpace).reverse with
  | nil => rfl
  | cons c cs =>
    have hu : s.dropWhile isSpace = (c :: cs) ++ t.reverse := by
      have h2 : s.dropWhile isSpace = ((s.dropWhile isSpace).reverse.dropWhile isSpace).reverse ++ t.reverse := by
        have := congrArg List.reverse ht
        simpa using this.symm
      rw [h2, hd]
    have hc : isSpace c = false :=
      head_dropWhile_not_space s c (by rw [hu]; rfl)
    simp [noLeadB, hc]

theorem noTrailB_singleton (c : Char) : noTrailB [c] = !isSpace c := rfl

theorem noTrailB_cons_of_ne_nil (c : Char) (cs : Str) (h : cs ≠ []) :
    noTrailB (c :: cs) = noTrailB cs := by
  cases hr : cs.reverse with
  | nil => exact absurd (List.reverse_eq_nil_iff.mp hr) h
  | cons d ds =>
    show noLeadB (c :: cs).reverse = noLeadB cs.reverse
    rw [List.reverse_cons, hr]
    rfl

/-- The joint induction behind the trim-and-collapse characterization of
`' '.join(text.split())` on a string with no trailing whitespace: with a
word in progress `acc`, the join of the remaining split equals
`acc.reverse` followed by the collapse of the rest; and from inside a
gap, the rest of the join is a single space followed by the collapse of
the rest with a run in progress. -/
theorem splitJoin_collapse :
    ∀ (n : Nat) (s : Str), s.length ≤ n → noTrailB s = true →
      ((∀ acc : Str, acc ≠ [] →
          joinSpace (pySplitAux s acc) = acc.reverse ++ collapseRuns false s) ∧
       (s ≠ [] → joinSpaceRest (pySplitAux s []) = ' ' :: collapseRuns true s)) := by
  intro n
  induction n with
  | zero =>
    intro s hlen _
    have hs : s = [] := List.eq_nil_of_length_eq_zero (Nat.le_zero.mp hlen)
    subst hs
    constructor
    · intro acc hacc
      cases acc with
      | nil => exact absurd rfl hacc
      | cons a as => simp [pySplitAux, joinSpace, joinSpaceRest, collapseRuns]
    · intro hne
      exact absurd rfl hne
  | succ n ih =>
    intro s hlen htrail
    cases s with
    | nil =>
      constructor
      · intro acc hacc
        cases acc with
        | nil => exact absurd rfl hacc
        | cons a as => simp [pySplitAux, joinSpace, joinSpaceRest, collapseRuns]
      · intro hne
        exact absurd rfl hne
    | cons c cs =>
      have hcs_len : cs.length ≤ n := by
        simp only [List.length_cons] at hlen
        omega
      by_cases hsp : isSpace c
      · have hcsne : cs ≠ [] := by
          intro h
          subst h
          rw [noTrailB_singleton] at htrail
          simp [hsp] at htrail
        have htcs : noTrailB cs = true := by
          rw [noTrailB_cons_of_ne_nil c cs hcsne] at htrail
          exact htrail
        constructor
        · intro acc hacc
          cases acc with
          | nil => exact absurd rfl hacc
          | cons a as =>
            rw [show pySplitAux (c :: cs) (a :: as) = (a :: as).reverse :: pySplitAux cs [] from
              by simp [pySplitAux, hsp]]
            rw [joinSpace, (ih cs hcs_len htcs).2 hcsne]
            simp [collapseRuns, hsp]
        · intro _
          rw [show pySplitAux (c :: cs) [] = pySplitAux cs [] from by simp [pySplitAux, hsp],
              (ih cs hcs_len htcs).2 hcsne]
          simp [collapseRuns, hsp]
      · have htcs : noTrailB cs = true := by
          cases hcs : cs with
          | nil => rfl
          | cons d ds =>
            rw [hcs] at htrail
            rw [noTrailB_cons_of_ne_nil c (d :: ds) (by simp)] at htrail
            exact htrail
        constructor
        · intro acc hacc
          rw [show pySplitAux (c :: cs) acc = pySplitAux cs (c :: acc) from
                by simp [pySplitAux, hsp],
              (ih cs hcs_len htcs).1 (c :: acc) (by simp)]
          simp [collapseRuns, hsp]
        · intro _
          rw [show pySplitAux (c :: cs) [] = pySplitAux cs [c] from by simp [pySplitAux, hsp]]
          have hLne : pySplitAux cs [c] ≠ [] := pySplitAux_ne_nil cs [c] (by simp)
          rw [joinSpaceRest_of_ne_nil _ hLne, (ih cs hcs_len htcs).1 [c] (by simp)]
          simp [collapseRuns, hsp]

/-- On a string with no leading and no trailing whitespace,
`' '.join(text.split())` is exactly the replacement of every internal
whitespace run by one space. -/
theorem joinSplit_eq_collapse (t : Str) (hlead : noLeadB t = true)
    (htrail : noTrailB t = true) :
    joinSpace (pySplit t) = collapseRuns false t := by
  cases t with
  | nil => rfl
  | cons c cs =>
    have hsp : isSpace c = false := by
      simpa [noLeadB] using hlead
    have htcs : noTrailB cs = true := by
      cases hcs : cs with
      | nil => rfl
      | cons d ds =>
        rw [hcs] at htrail
        rw [noTrailB_cons_of_ne_nil c (d :: ds) (by simp)] at htrail
        exact htrail
    rw [pySplit, show pySplitAux (c :: cs) [] = pySplitAux cs [c] from
          by simp [pySplitAux, hsp],
        (splitJoin_collapse cs.length cs le_rfl htcs).1 [c] (by simp)]
    simp [collapseRuns, hsp]

/-- Claim C5: `clean_text` is total and always returns a string: a
non-string input yields the empty string, and a string input is trimmed
of leading/trailing whitespace with every internal whitespace run
collapsed to a single space, the result being discarded (empty string)
exactly when it is shorter than 100 characters. -/
theorem clean_text_spec_characterization :
    (∀ tn : Str, clean_text (PyVal.other tn) = []) ∧
    (∀ s : Str,
      clean_text (PyVal.str s) =
        if (collapseRuns false (pyStrip s)).length < 100 then []
        else collapseRuns false (pyStrip s)) := by
  constructor
  · intro tn
    rfl
  · intro s
    have h := joinSplit_eq_collapse (pyStrip s) (noLeadB_pyStrip s) (noTrailB_pyStrip s)
    show (if (joinSpace (pySplit (pyStrip s))).length < 100 then []
          else joinSpace (pySplit (pyStrip s))) =
         (if (collapseRuns false (pyStrip s)).length < 100 then []
          else collapseRuns false (pyStrip s))
    rw [h]
